import Mathlib

/-!
# Verification of the zooid relay event store and group engine

A shallow embedding of the core of the `unicity-relay` (zooid) code base:
the PostgreSQL-backed event store (`events.go`), the NIP-29 group engine
(`groups.go`), the relay management store (`management.go`) and the
instance-level invite generation (`instance.go`).  Events, filters and the
two database tables (`events`, `event_tags`) are modelled directly; SQL
queries are modelled as the list transformations the generated SQL denotes.

External collaborators that the repository itself treats as assumed
primitives (PostgreSQL full-text search, JSON decoding from the Go standard
library, hex key codecs) are threaded through as parameters, so every
theorem holds for all of their behaviours.
-/

namespace Zooid

/-- A nostr tag: an ordered sequence of strings whose head is the tag key. -/
abbrev Tag := List String

/-- The ordered tag list of an event. -/
abbrev Tags := List Tag

/-- An event as stored by the relay.  `id`, `pubkey` are hex strings, the
signature is not modelled (no query or policy decision in the embedded code
reads it). `createdAt` is the int64 seconds value. -/
structure Event where
  id : String
  pubkey : String
  createdAt : Int
  kind : Nat
  content : String
  tags : Tags
  deriving Repr, DecidableEq, Inhabited

/-- One row of the `event_tags` table: `(event_id, key, value)`. -/
structure TagRow where
  eventId : String
  key : String
  value : String
  deriving Repr, DecidableEq, Inhabited

/-- The per-tenant database namespace: the `events` table (kept in ingress
order, oldest first) and the `event_tags` table. -/
structure DB where
  events : List Event
  tagRows : List TagRow
  deriving Repr, DecidableEq, Inhabited

/-- The empty store. -/
def DB.empty : DB := { events := [], tagRows := [] }

/-- A nostr filter (`nostr.Filter`): zero values mean "no constraint",
mirroring the Go struct. `tags` is the `TagMap` as an association list. -/
structure Filter where
  ids : List String := []
  authors : List String := []
  kinds : List Nat := []
  sinceTs : Int := 0
  untilTs : Int := 0
  tags : List (String × List String) := []
  search : String := ""
  limit : Nat := 0
  limitZero : Bool := false
  deriving Repr, DecidableEq, Inhabited

/-! ## Kind constants (NIP-29 and relay-custom kinds) -/

def KindSimpleGroupPutUser : Nat := 9000
def KindSimpleGroupRemoveUser : Nat := 9001
def KindSimpleGroupEditMetadata : Nat := 9002
def KindSimpleGroupDeleteEvent : Nat := 9005
def KindSimpleGroupCreateGroup : Nat := 9007
def KindSimpleGroupDeleteGroup : Nat := 9008
/-- NIP-29 group invite kind (defined in `groups.go`). -/
def KindSimpleGroupCreateInvite : Nat := 9009
def KindSimpleGroupJoinRequest : Nat := 9021
def KindSimpleGroupLeaveRequest : Nat := 9022
def KindSimpleGroupMetadata : Nat := 39000
def KindSimpleGroupAdmins : Nat := 39001
def KindSimpleGroupMembers : Nat := 39002
def KindSimpleGroupRoles : Nat := 39003
def KindApplicationSpecificData : Nat := 30078

/-- Modelled from the spec: the relay-custom kinds ("join, leave, add-member,
remove-member, members-list, invite") are distinct numeric values defined in a
code-table file of the repository that is not under `src/`; only their
distinctness from each other and from the NIP-29 kinds is relied upon. -/
def RELAY_JOIN : Nat := 28934
def RELAY_LEAVE : Nat := 28935
def RELAY_ADD_MEMBER : Nat := 28936
def RELAY_REMOVE_MEMBER : Nat := 28937
def RELAY_MEMBERS : Nat := 28938
def RELAY_INVITE : Nat := 28939

/-- Modelled from the spec: `nip29.MetadataEventKinds` from the external
`fiatjaf.com/nostr/nip29` library — the server-generated group metadata kinds
(metadata, admins, members, roles). -/
def MetadataEventKinds : List Nat :=
  [KindSimpleGroupMetadata, KindSimpleGroupAdmins, KindSimpleGroupMembers, KindSimpleGroupRoles]

/-- Modelled from the spec: `nip29.ModerationEventKinds` from the external
`fiatjaf.com/nostr/nip29` library — the standard NIP-29 moderation kinds
(put-user, remove-user, edit-metadata, delete-event, create-group,
delete-group). -/
def ModerationEventKinds : List Nat :=
  [KindSimpleGroupPutUser, KindSimpleGroupRemoveUser, KindSimpleGroupEditMetadata,
   KindSimpleGroupDeleteEvent, KindSimpleGroupCreateGroup, KindSimpleGroupDeleteGroup]

/-- `nostr.Kind.IsReplaceable` from the external nostr library: kind 0, 3 or
in `[10000, 20000)`. -/
def isReplaceableKind (k : Nat) : Bool :=
  k = 0 || k = 3 || (10000 ≤ k && k < 20000)

/-- `nostr.Kind.IsAddressable` from the external nostr library: kind in
`[30000, 40000)`. -/
def isAddressableKind (k : Nat) : Bool :=
  30000 ≤ k && k < 40000

/-! ## Tag helpers (`nostr.Tags` methods of the external library) -/

/-- `Tags.Find(key)`: the first tag with at least two elements whose head is
`key`, returned as its value and trailing elements; `none` models Go `nil`. -/
def findTag (tags : Tags) (key : String) : Option (String × List String) :=
  match tags with
  | [] => none
  | t :: rest =>
    match t with
    | k :: v :: more => if k = key then some (v, more) else findTag rest key
    | _ => findTag rest key

/-- `Tags.FindAll(key)`: values of every tag with at least two elements whose
head is `key`. -/
def findAllTagValues (tags : Tags) (key : String) : List String :=
  tags.filterMap fun t =>
    match t with
    | k :: v :: _ => if k = key then some v else none
    | _ => none

/-- `Tags.FindWithValue(key, value)`: whether some tag has head `key` and
first value `value`. -/
def findWithValue (tags : Tags) (key value : String) : Bool :=
  tags.any fun t =>
    match t with
    | k :: v :: _ => k = key && v = value
    | _ => false

/-- `Tags.GetD()`: value of the first `d` tag, or `""`. -/
def getD (tags : Tags) : String :=
  match findTag tags "d" with
  | some (v, _) => v
  | none => ""

/-- Modelled from the spec: the repository helper `HasTag(tags, name)` (its
utility file is not under `src/`) — presence of a bare tag such as
`["private"]` on the record ("metadata.{private, hidden, closed}: presence of
those bare tags"). -/
def HasTag (tags : Tags) (name : String) : Bool :=
  tags.any fun t => t.head? = some name

/-- The rows inserted into `event_tags` by `SaveEvent`: one `(id, key, value)`
row per tag with at least two elements and a single-character key. -/
def tagRowsFor (id : String) (tags : Tags) : List TagRow :=
  tags.filterMap fun t =>
    match t with
    | k :: v :: _ => if k.length = 1 then some ⟨id, k, v⟩ else none
    | _ => none

/-! ## The event store (`events.go`)

`buildSelectQuery` renders `SELECT … ORDER BY created_at DESC [LIMIT n]` with
a conjunction of `WHERE` clauses; tag constraints become
`id IN (SELECT event_id FROM event_tags WHERE key = k AND value IN vs)`.
The row order for equal `created_at` is the ingress-order-descending
tie-break the design notes require of the storage engine. -/

/-- Insert an event into a `created_at`-descending list, in front of every
row with an equal or smaller timestamp (so that, folding in ingress order,
ties end up ingress-descending). -/
def sortedInsert (e : Event) : List Event → List Event
  | [] => [e]
  | x :: xs => if x.createdAt ≤ e.createdAt then e :: x :: xs else x :: sortedInsert e xs

/-- `ORDER BY created_at DESC` over the `events` table, ties broken by
ingress order descending. -/
def queryOrder (events : List Event) : List Event :=
  events.foldl (fun acc e => sortedInsert e acc) []

/-- The tag-constraint subquery: does `event_tags` hold a row
`(eid, k, v)` with `v ∈ vs`? -/
def tagCond (rows : List TagRow) (k : String) (vs : List String) (eid : String) : Bool :=
  rows.any fun r => r.eventId = eid && r.key = k && vs.contains r.value

section Store

-- PostgreSQL full-text search (`search_vector @@ plainto_tsquery('english', q)`)
-- is an external collaborator of the store; it is threaded through as a
-- parameter so every theorem holds for all of its behaviours.
variable (fts : String → String → Bool)

/-- The conjunction of `WHERE` clauses `buildSelectQuery` emits for a filter:
each clause is added only when the corresponding field is non-zero, and a tag
constraint is skipped when its value list is empty or its key is not a single
character. -/
def selectPred (rows : List TagRow) (f : Filter) (e : Event) : Bool :=
  (f.search = "" || fts f.search e.content) &&
  (f.ids.isEmpty || f.ids.contains e.id) &&
  (f.authors.isEmpty || f.authors.contains e.pubkey) &&
  (f.kinds.isEmpty || f.kinds.contains e.kind) &&
  (f.sinceTs = 0 || f.sinceTs ≤ e.createdAt) &&
  (f.untilTs = 0 || e.createdAt ≤ f.untilTs) &&
  (f.tags.all fun kv =>
    kv.2.isEmpty || kv.1.length ≠ 1 || tagCond rows kv.1 kv.2 e.id)

/-- `EventStore.buildSelectQuery`: the rows the generated SQL denotes —
the ordered table filtered by the `WHERE` conjunction, truncated by `LIMIT`
when `filter.Limit > 0`. -/
def buildSelectQuery (db : DB) (f : Filter) : List Event :=
  let rows := (queryOrder db.events).filter (selectPred fts db.tagRows f)
  if f.limit > 0 then rows.take f.limit else rows

/-- `EventStore.QueryEvents(filter, maxLimit)`: empty on `LimitZero`,
otherwise the filter's limit is capped by `maxLimit` when
`maxLimit > 0 && maxLimit < filter.Limit`. -/
def queryEvents (db : DB) (f : Filter) (maxLimit : Nat) : List Event :=
  if f.limitZero then []
  else
    let f' := if maxLimit > 0 && maxLimit < f.limit then { f with limit := maxLimit } else f
    buildSelectQuery fts db f'

/-- `EventStore.CountEvents(filter)`:
`SELECT COUNT(*) FROM (buildSelectQuery(filter)) subquery` — the length of
the inner select's row set, `LIMIT` included. -/
def countEvents (db : DB) (f : Filter) : Nat :=
  (buildSelectQuery fts db f).length

end Store

/-- The distinguished `eventstore.ErrDupEvent` outcome of `SaveEvent`. -/
inductive StoreError where
  | dupEvent
  deriving Repr, DecidableEq

/-- `EventStore.SaveEvent`: `INSERT … ON CONFLICT(id) DO NOTHING`; zero rows
affected means `ErrDupEvent` and nothing else happens; otherwise the event
row is inserted and its single-letter tags are added to `event_tags`. -/
def saveEvent (db : DB) (evt : Event) : Except StoreError DB :=
  if db.events.any (fun e => e.id = evt.id) then
    .error .dupEvent
  else
    .ok { events := db.events ++ [evt],
          tagRows := db.tagRows ++ tagRowsFor evt.id evt.tags }

/-- `EventStore.DeleteEvent`: delete the event row; the `event_tags` foreign
key cascades. -/
def deleteEvent (db : DB) (id : String) : DB :=
  { events := db.events.filter (fun e => e.id ≠ id),
    tagRows := db.tagRows.filter (fun r => r.eventId ≠ id) }

section Store2

variable (fts : String → String → Bool)

/-- `EventStore.ReplaceEvent`: query the previous events of the same
`(author, kind[, d-value])`; collect those with `created_at ≤ evt.created_at`
for deletion, refuse to save if any is newer; save (ignoring a duplicate
error), then delete the collected ids. -/
def replaceEvent (db : DB) (evt : Event) : DB :=
  let f0 : Filter := { kinds := [evt.kind], authors := [evt.pubkey] }
  let f : Filter :=
    if isAddressableKind evt.kind then { f0 with tags := [("d", [getD evt.tags])] } else f0
  let previous := queryEvents fts db f 1
  let shouldSave := previous.all (fun p => p.createdAt ≤ evt.createdAt)
  let shouldDelete := (previous.filter (fun p => p.createdAt ≤ evt.createdAt)).map (·.id)
  let db1 :=
    if shouldSave then
      match saveEvent db evt with
      | .ok d => d
      | .error _ => db
    else db
  shouldDelete.foldl deleteEvent db1

/-- `EventStore.StoreEvent`: replaceable and addressable kinds go through
`ReplaceEvent`; other kinds through `SaveEvent`, swallowing a duplicate. -/
def storeEvent (db : DB) (evt : Event) : DB :=
  if isReplaceableKind evt.kind || isAddressableKind evt.kind then
    replaceEvent fts db evt
  else
    match saveEvent db evt with
    | .ok d => d
    | .error _ => db

end Store2

/-! ## Configuration (`config.go`) and management store (`management.go`) -/

/-- A named role from the TOML configuration. -/
structure Role where
  pubkeys : List String
  canInvite : Bool
  canManage : Bool
  deriving Repr, DecidableEq, Inhabited

/-- The `[groups]` policy block. -/
structure GroupsConfig where
  enabled : Bool := false
  autoJoin : Bool := false
  adminCreateOnly : Bool := false
  privateAdminOnly : Bool := false
  privateRelayAdminAccess : Bool := false
  deriving Repr, DecidableEq, Inhabited

/-- The per-tenant configuration: the relay's own public key (`GetSelf`,
derived from the secret), the owner (`info.pubkey`), the `[policy]` flags,
the `[groups]` flags and the role table. -/
structure Config where
  self : String
  owner : String
  policyOpen : Bool := false
  publicJoin : Bool := false
  stripSignatures : Bool := false
  groups : GroupsConfig := {}
  roles : List (String × Role) := []
  deriving Repr, DecidableEq, Inhabited

def Config.isSelf (cfg : Config) (pubkey : String) : Bool := pubkey = cfg.self

def Config.isOwner (cfg : Config) (pubkey : String) : Bool := pubkey = cfg.owner

/-- `Config.GetAllRoles`: the role named "member" always applies; any other
role applies when its pubkey list contains the key. -/
def Config.getAllRoles (cfg : Config) (pubkey : String) : List Role :=
  cfg.roles.filterMap fun nr =>
    if nr.1 = "member" then some nr.2
    else if nr.2.pubkeys.contains pubkey then some nr.2 else none

/-- `Config.CanManage`: owner and the relay key always can; otherwise some
applicable role must grant `can_manage`. -/
def Config.canManage (cfg : Config) (pubkey : String) : Bool :=
  cfg.isOwner pubkey || cfg.isSelf pubkey ||
    (cfg.getAllRoles pubkey).any (·.canManage)

/-- `Config.CanInvite`: same shape for `can_invite`. -/
def Config.canInvite (cfg : Config) (pubkey : String) : Bool :=
  cfg.isOwner pubkey || cfg.isSelf pubkey ||
    (cfg.getAllRoles pubkey).any (·.canInvite)

/-- `ManagementStore.IsAdmin`: owner or the relay's own key. -/
def mgmtIsAdmin (cfg : Config) (pubkey : String) : Bool :=
  cfg.isOwner pubkey || cfg.isSelf pubkey

/-- `ManagementStore.GetAdmins`: owner, the relay key, then every pubkey of a
role granting `can_manage`. -/
def mgmtGetAdmins (cfg : Config) : List String :=
  cfg.owner :: cfg.self ::
    (cfg.roles.filter (·.2.canManage)).flatMap (·.2.pubkeys)

/-- `Config.Sign`: the SHA-256 id and Schnorr signature are assumed
primitives (spec §1); the model records the binding of the event to the
relay's own key that signing establishes. -/
def signEvent (cfg : Config) (e : Event) : Event :=
  { e with pubkey := cfg.self }

/-! ## Group engine state (`groups.go`, cache-backed version) -/

/-- One entry of the group metadata cache (`groupMetaCache`); `priv` models
the Go field `private` (a Lean keyword). -/
structure GroupMetaCache where
  event : Event
  found : Bool
  priv : Bool
  hidden : Bool
  closed : Bool
  deriving Repr, DecidableEq, Inhabited

/-- The mutable state of a `GroupStore`: the shared event store plus the
three warm caches (`sync.Map`s modelled as association lists) and the
`cachesWarmed` flag. -/
structure GroupState where
  db : DB
  metadataCache : List (String × GroupMetaCache) := []
  membershipCache : List (String × List String) := []
  creatorCache : List (String × String) := []
  cachesWarmed : Bool := false
  deriving Repr, DecidableEq, Inhabited

/-- Association-list lookup (`sync.Map.Load`). -/
def lookupAssoc {β : Type} (l : List (String × β)) (k : String) : Option β :=
  match l with
  | [] => none
  | kv :: rest => if kv.1 = k then some kv.2 else lookupAssoc rest k

/-- Association-list store (`sync.Map.Store` / `LoadOrStore`). -/
def setAssoc {β : Type} (l : List (String × β)) (k : String) (v : β) :
    List (String × β) :=
  match l with
  | [] => [(k, v)]
  | kv :: rest => if kv.1 = k then (k, v) :: rest else kv :: setAssoc rest k v

/-- Go set-map insertion (`members[pk] = struct{}{}`). -/
def msInsert (l : List String) (pk : String) : List String :=
  if l.contains pk then l else l ++ [pk]

/-- Go set-map removal (`delete(members, pk)`). -/
def msRemove (l : List String) (pk : String) : List String :=
  l.filter (· ≠ pk)

/-- `GetGroupIDFromEvent`: the first `d` tag value for metadata kinds, the
first `h` tag value otherwise, `""` when absent. -/
def GetGroupIDFromEvent (event : Event) : String :=
  let tagName := if MetadataEventKinds.contains event.kind then "d" else "h"
  match findTag event.tags tagName with
  | some (v, _) => v
  | none => ""

/-- `GetInviteCodeFromEvent`: the first `code` tag value, `""` when absent. -/
def GetInviteCodeFromEvent (event : Event) : String :=
  match findTag event.tags "code" with
  | some (v, _) => v
  | none => ""

section Groups

-- `fts`: PostgreSQL full-text search; `jsonFlag content name`: whether the
-- Go-stdlib JSON decoding of `content` yields an object whose field `name`
-- is boolean `true`; `pkValid`: whether a string is accepted by the assumed
-- hex key codec `nostr.PubKeyFromHex` (canonical keys parse to themselves).
variable (fts : String → String → Bool)
variable (jsonFlag : String → String → Bool)
variable (pkValid : String → Bool)
variable (cfg : Config)

/-- `nostr.PubKeyFromHex` on canonical keys: validity-gated identity. -/
def pubKeyFromHex (s : String) : Option String :=
  if pkValid s then some s else none

/-- `isPrivateGroupContent`: JSON content has `"private": true`. -/
def isPrivateGroupContent (content : String) : Bool :=
  jsonFlag content "private"

/-- `GroupStore.GetMetadata`: warmed, the metadata cache decides; cold, the
newest kind-39000 event with `d` tag `h`. -/
def GetMetadata (g : GroupState) (h : String) : Option Event :=
  if g.cachesWarmed then
    match lookupAssoc g.metadataCache h with
    | some c => if c.found then some c.event else none
    | none => none
  else
    (queryEvents fts g.db
      { kinds := [KindSimpleGroupMetadata], tags := [("d", [h])] } 1).head?

/-- `GroupStore.IsPrivateGroup`: warmed, the cached `private` flag; cold, the
bare `private` tag on the metadata record. -/
def IsPrivateGroup (g : GroupState) (h : String) : Bool :=
  if g.cachesWarmed then
    match lookupAssoc g.metadataCache h with
    | some c => c.priv
    | none => false
  else
    match GetMetadata fts g h with
    | some meta => HasTag meta.tags "private"
    | none => false

/-- `GroupStore.GetGroupCreator`: warmed, the creator cache; cold, the author
of the newest create-group event with `h` tag `h` (zero key when absent). -/
def GetGroupCreator (g : GroupState) (h : String) : String :=
  if g.cachesWarmed then
    match lookupAssoc g.creatorCache h with
    | some pk => pk
    | none => ""
  else
    match (queryEvents fts g.db
      { kinds := [KindSimpleGroupCreateGroup], tags := [("h", [h])] } 1).head? with
    | some e => e.pubkey
    | none => ""

/-- `GroupStore.IsGroupCreator`. -/
def IsGroupCreator (g : GroupState) (h pubkey : String) : Bool :=
  GetGroupCreator fts g h = pubkey

/-- The loop body of the cold `IsMember`: the first put-user or remove-user
event decides. -/
def isMemberScan : List Event → Bool
  | [] => false
  | e :: rest =>
    if e.kind = KindSimpleGroupPutUser then true
    else if e.kind = KindSimpleGroupRemoveUser then false
    else isMemberScan rest

/-- `GroupStore.IsMember`: warmed, membership-set lookup; cold, the newest
put/remove event carrying both the `p` and `h` tag decides. -/
def IsMember (g : GroupState) (h pubkey : String) : Bool :=
  if g.cachesWarmed then
    match lookupAssoc g.membershipCache h with
    | some ms => ms.contains pubkey
    | none => false
  else
    isMemberScan (queryEvents fts g.db
      { kinds := [KindSimpleGroupPutUser, KindSimpleGroupRemoveUser],
        tags := [("p", [pubkey]), ("h", [h])] } 1)

/-- The shared per-`p`-tag body of the membership replay loops: parse the
value, then put or delete it in the member set. -/
def memberValueOp (kind : Nat) (acc : List String) (v : String) : List String :=
  match pubKeyFromHex pkValid v with
  | some pk =>
    if kind = KindSimpleGroupPutUser then msInsert acc pk else msRemove acc pk
  | none => acc

/-- The shared per-event replay step of `GetMembers` and `WarmCaches`: every
parseable `p` tag value is added on put-user and removed otherwise. -/
def membershipStep (acc : List String) (e : Event) : List String :=
  (findAllTagValues e.tags "p").foldl (memberValueOp pkValid e.kind) acc

/-- `GroupStore.GetMembers`: warmed, the cached set; cold, a replay of the
put/remove log for `h` in ascending order (`Reversed` of the query). -/
def GetMembers (g : GroupState) (h : String) : List String :=
  if g.cachesWarmed then
    match lookupAssoc g.membershipCache h with
    | some ms => ms
    | none => []
  else
    ((queryEvents fts g.db
      { kinds := [KindSimpleGroupPutUser, KindSimpleGroupRemoveUser],
        tags := [("h", [h])] } 0).reverse).foldl (membershipStep pkValid) []

/-- `GroupStore.ValidateInviteCode`: a non-empty code carried by some
persisted create-invite event with `h` tag `h`. -/
def ValidateInviteCode (g : GroupState) (h code : String) : Bool :=
  if code = "" then false
  else
    (queryEvents fts g.db
      { kinds := [KindSimpleGroupCreateInvite], tags := [("h", [h])] } 0).any
      fun event =>
        match findTag event.tags "code" with
        | some (v, _) => v = code
        | none => false

/-- `GroupStore.IsAdmin` ignores the group and delegates to the relay-level
admin check. -/
def IsAdmin (g : GroupState) (h pubkey : String) : Bool :=
  mgmtIsAdmin cfg pubkey

/-- `GroupStore.HasAccess`: members/creator only for private groups without
relay-admin access; otherwise manage capability, admin or membership. -/
def HasAccess (g : GroupState) (h pubkey : String) : Bool :=
  if IsPrivateGroup fts g h && !cfg.groups.privateRelayAdminAccess then
    IsMember fts g h pubkey || IsGroupCreator fts g h pubkey
  else
    cfg.canManage pubkey || IsAdmin cfg g h pubkey || IsMember fts g h pubkey

/-- `GroupStore.IsGroupEvent`. -/
def IsGroupEvent (event : Event) : Bool :=
  MetadataEventKinds.contains event.kind ||
  ModerationEventKinds.contains event.kind ||
  [KindSimpleGroupJoinRequest, KindSimpleGroupLeaveRequest].contains event.kind ||
  GetGroupIDFromEvent event ≠ ""

/-- `GroupStore.CanRead`. -/
def CanRead (g : GroupState) (pubkey : String) (event : Event) : Bool :=
  if !cfg.groups.enabled then false
  else
    let h := GetGroupIDFromEvent event
    if h = "_" then true
    else
      match GetMetadata fts g h with
      | none => false
      | some meta =>
        if HasTag meta.tags "hidden" && !HasAccess fts cfg g h pubkey then false
        else if event.kind = KindSimpleGroupMetadata then true
        else if event.kind = KindSimpleGroupDeleteGroup then true
        else if HasTag meta.tags "private" && !HasAccess fts cfg g h pubkey then false
        else if cfg.policyOpen && !HasTag meta.tags "private" then true
        else HasAccess fts cfg g h pubkey

/-- The inner moderation gate of `CheckWrite`: `some msg` models an early
`return msg`, `none` a fall-through. -/
def checkWriteModeration (g : GroupState) (h pubkey : String) : Option String :=
  if IsPrivateGroup fts g h && !cfg.groups.privateRelayAdminAccess then
    if !IsGroupCreator fts g h pubkey then
      some "restricted: only the group creator can manage private groups"
    else none
  else if !cfg.canManage pubkey && !IsGroupCreator fts g h pubkey then
    some "restricted: you are not authorized to manage groups"
  else none

/-- `GroupStore.CheckWrite`: the write decision table; `""` models the empty
(accepting) error string. -/
def CheckWrite (g : GroupState) (event : Event) : String :=
  if !cfg.groups.enabled then "invalid: groups are not enabled"
  else if MetadataEventKinds.contains event.kind then
    "invalid: group metadata cannot be set directly"
  else
    let h := GetGroupIDFromEvent event
    let meta? := GetMetadata fts g h
    if event.kind = KindSimpleGroupCreateGroup then
      if meta?.isSome then "invalid: that group already exists"
      else if cfg.groups.adminCreateOnly && !cfg.canManage event.pubkey then
        "restricted: only admins can create groups"
      else if cfg.groups.privateAdminOnly && !cfg.canManage event.pubkey &&
          isPrivateGroupContent jsonFlag event.content then
        "restricted: only admins can create private groups"
      else ""
    else
      match meta? with
      | none => "invalid: group not found"
      | some meta =>
        match
          if ModerationEventKinds.contains event.kind then
            checkWriteModeration fts cfg g h event.pubkey
          else none
        with
        | some msg => msg
        | none =>
          if event.kind = KindSimpleGroupJoinRequest then
            if IsMember fts g h event.pubkey then "duplicate: already a member"
            else
              let isPrivate := HasTag meta.tags "private"
              let isHidden := HasTag meta.tags "hidden"
              if (isPrivate || isHidden) &&
                  !ValidateInviteCode fts g h (GetInviteCodeFromEvent event) then
                if isHidden then "invalid: group not found"
                else "restricted: valid invite code required to join this group"
              else ""
          else if HasTag meta.tags "hidden" && !HasAccess fts cfg g h event.pubkey then
            "invalid: group not found"
          else if event.kind = KindSimpleGroupLeaveRequest then
            if !IsMember fts g h event.pubkey then "duplicate: not currently a member"
            else ""
          else if HasTag meta.tags "closed" && !HasAccess fts cfg g h event.pubkey then
            "restricted: you are not a member of that group"
          else ""

end Groups

section Warm

variable (fts : String → String → Bool)
variable (jsonFlag : String → String → Bool)
variable (pkValid : String → Bool)
variable (cfg : Config)

/-- The metadata pass of `GroupStore.WarmCaches`, storing into the (usually
empty) cache the store already holds. -/
def warmMetadataCache (init : List (String × GroupMetaCache)) (db : DB) :
    List (String × GroupMetaCache) :=
  (queryEvents fts db { kinds := [KindSimpleGroupMetadata] } 0).foldl
    (fun acc event =>
      let h := getD event.tags
      if h = "" then acc
      else
        setAssoc acc h
          { event := event, found := true,
            priv := HasTag event.tags "private",
            hidden := HasTag event.tags "hidden",
            closed := HasTag event.tags "closed" })
    init

/-- The creator pass of `GroupStore.WarmCaches`. -/
def warmCreatorCache (init : List (String × String)) (db : DB) :
    List (String × String) :=
  (queryEvents fts db { kinds := [KindSimpleGroupCreateGroup] } 0).foldl
    (fun acc event =>
      let h := GetGroupIDFromEvent event
      if h = "" then acc else setAssoc acc h event.pubkey)
    init

/-- One `p`-tag step of the membership pass: parse, get-or-create the
group's member set, then put or delete. -/
def warmMembershipTagStep (h : String) (kind : Nat)
    (acc : List (String × List String)) (v : String) :
    List (String × List String) :=
  match pubKeyFromHex pkValid v with
  | none => acc
  | some pk =>
    let ms := (lookupAssoc acc h).getD []
    setAssoc acc h
      (if kind = KindSimpleGroupPutUser then msInsert ms pk else msRemove ms pk)

/-- One event of the membership pass of `WarmCaches`. -/
def warmMembershipStep (acc : List (String × List String)) (event : Event) :
    List (String × List String) :=
  let h := GetGroupIDFromEvent event
  if h = "" then acc
  else (findAllTagValues event.tags "p").foldl (warmMembershipTagStep pkValid h event.kind) acc

/-- The membership pass of `GroupStore.WarmCaches`: the put/remove log is
replayed oldest-first (`Reversed` of the query). -/
def warmMembershipCache (init : List (String × List String)) (db : DB) :
    List (String × List String) :=
  ((queryEvents fts db
    { kinds := [KindSimpleGroupPutUser, KindSimpleGroupRemoveUser] } 0).reverse).foldl
    (warmMembershipStep pkValid) init

/-- `GroupStore.WarmCaches`: run the three passes and flip `cachesWarmed`. -/
def WarmCaches (g : GroupState) : GroupState :=
  { g with
    metadataCache := warmMetadataCache fts g.metadataCache g.db,
    creatorCache := warmCreatorCache fts g.creatorCache g.db,
    membershipCache := warmMembershipCache fts pkValid g.membershipCache g.db,
    cachesWarmed := true }

/-- `GroupStore.GetAdmins`: for a private group (other than the relay
sentinel) without relay-admin access, the creator alone; otherwise the
relay-level admins. -/
def GetAdmins (g : GroupState) (h : String) : List String :=
  if h ≠ "_" && IsPrivateGroup fts g h && !cfg.groups.privateRelayAdminAccess then
    let creator := GetGroupCreator fts g h
    if creator ≠ "" then [creator] else []
  else mgmtGetAdmins cfg

/-- The event built and signed by `GroupStore.UpdateMembersList`. -/
def membersListEvent (g : GroupState) (now : Int) (h : String) : Event :=
  signEvent cfg
    { id := "", pubkey := "", createdAt := now, kind := KindSimpleGroupMembers,
      content := "",
      tags := [["-"], ["d", h]] ++ (GetMembers fts pkValid g h).map (fun pk => ["p", pk]) }

/-- The event built and signed by `GroupStore.UpdateAdminsList`. -/
def adminsListEvent (g : GroupState) (now : Int) (h : String) : Event :=
  signEvent cfg
    { id := "", pubkey := "", createdAt := now, kind := KindSimpleGroupAdmins,
      content := "",
      tags := [["-"], ["d", h]] ++ (GetAdmins fts cfg g h).map (fun pk => ["p", pk]) }

/-- The tag rewrite of `GroupStore.UpdateMetadata`: every `h` tag (with a
value) becomes a two-element `d` tag, everything else is kept. -/
def metadataEventTags (tags : Tags) : Tags :=
  tags.map fun t =>
    match t with
    | k :: v :: _ => if k = "h" then ["d", v] else t
    | _ => t

/-- The visibility flag tags `UpdateMetadata` appends from the content
JSON. -/
def metadataFlagTags (content : String) : Tags :=
  (if jsonFlag content "private" then [(["private"] : Tag)] else []) ++
  (if jsonFlag content "closed" then [(["closed"] : Tag)] else []) ++
  (if jsonFlag content "hidden" then [(["hidden"] : Tag)] else [])

/-- The metadata record built and signed by `GroupStore.UpdateMetadata` from
a create-group or edit-metadata event. -/
def updateMetadataEvent (event : Event) : Event :=
  signEvent cfg
    { id := "", pubkey := "", createdAt := event.createdAt,
      kind := KindSimpleGroupMetadata, content := event.content,
      tags := metadataEventTags event.tags ++ metadataFlagTags jsonFlag event.content }

/-- `Instance.GenerateInviteEvent`: return the first persisted invite the
filter finds, else build, sign and store a fresh invite carrying the random
8-character `claim` token and the recipient `p` tag.  `token` stands for the
`RandomString(8)` draw. -/
def GenerateInviteEvent (db : DB) (now : Int) (token : String) (pubkey : String) :
    Event × DB :=
  let f : Filter := { kinds := [RELAY_INVITE], tags := [("#p", [pubkey])] }
  match (queryEvents fts db f 1).head? with
  | some event => (event, db)
  | none =>
    let event := signEvent cfg
      { id := "", pubkey := "", createdAt := now, kind := RELAY_INVITE,
        content := "", tags := [["claim", token], ["p", pubkey]] }
    (event, storeEvent fts db event)

end Warm

/-! ## Concrete fixtures

Instantiations of the external-collaborator parameters and small concrete
stores, used by the closed evaluation theorems and witnesses below. -/

/-- A full-text-search behaviour: nothing matches. -/
def ftsNone : String → String → Bool := fun _ _ => false

/-- A JSON-flag behaviour: no boolean field is true (e.g. content `"{}"`). -/
def jsonNone : String → String → Bool := fun _ _ => false

/-- A key-codec behaviour: every string parses. -/
def pkAll : String → Bool := fun _ => true

/-- A replaceable (kind-0) event. -/
def evReplaceable : Event :=
  { id := "e1", pubkey := "alice", createdAt := 1000, kind := 0, content := "profile", tags := [] }

/-- Five regular kind-1 events with distinct ids. -/
def mkNote (i : Nat) : Event :=
  { id := toString i, pubkey := "alice", createdAt := (i : Int), kind := 1, content := "", tags := [] }

/-- A store holding the five kind-1 notes. -/
def dbFiveNotes : DB :=
  ([1, 2, 3, 4, 5].map mkNote).foldl
    (fun db e => match saveEvent db e with | .ok d => d | .error _ => db) DB.empty

/-- A persisted relay invite whose recipient `p` tag is `alice`. -/
def inviteForAlice : Event :=
  { id := "ia", pubkey := "relay", createdAt := 50, kind := RELAY_INVITE,
    content := "", tags := [["claim", "c1"], ["p", "alice"]] }

/-- A store holding only `inviteForAlice`. -/
def dbInvite : DB :=
  match saveEvent DB.empty inviteForAlice with | .ok d => d | .error _ => DB.empty

/-- A minimal configuration with groups enabled. -/
def cfgGroups : Config :=
  { self := "relay", owner := "owner", groups := { enabled := true } }

/-- The same configuration with groups disabled. -/
def cfgNoGroups : Config :=
  { self := "relay", owner := "owner", groups := { enabled := false } }

/-- A kind-9 chat event addressed to the relay sentinel group "_". -/
def evSentinel : Event :=
  { id := "es", pubkey := "alice", createdAt := 10, kind := 9, content := "hi",
    tags := [["h", "_"]] }

/-- A create-group event without a `-` tag. -/
def evCreatePub : Event :=
  { id := "ec", pubkey := "alice", createdAt := 20, kind := KindSimpleGroupCreateGroup,
    content := "\x7b\x7d", tags := [["h", "g"]] }

/-- The metadata record of a warmed private group `g`. -/
def metaPrivG : Event :=
  { id := "em", pubkey := "relay", createdAt := 30, kind := KindSimpleGroupMetadata,
    content := "\x7b\x7d", tags := [["d", "g"], ["private"]] }

/-- A warmed group state: private group `g` created by `carol`, no members. -/
def gPrivWarm : GroupState :=
  { db := DB.empty,
    metadataCache := [("g",
      { event := metaPrivG, found := true, priv := true, hidden := false, closed := false })],
    membershipCache := [],
    creatorCache := [("g", "carol")],
    cachesWarmed := true }

/-! ## Claims -/

/-- **C10.** For every event whose id is already present in the store,
`SaveEvent` returns the `DuplicateEvent` error (and hence produces no new
store state: no event row and no tag-index rows). -/
theorem saveEvent_duplicate_rejected (db : DB) (evt : Event)
    (hdup : evt.id ∈ db.events.map (·.id)) :
    saveEvent db evt = .error .dupEvent := by
  have : db.events.any (fun e => e.id = evt.id) = true := by
    rcases List.mem_map.mp hdup with ⟨e, he, hid⟩
    exact List.any_eq_true.mpr ⟨e, he, by simp [hid]⟩
  simp [saveEvent, this]

/-- Witness for C10: re-saving note 3 into the five-note store is rejected
as a duplicate. -/
theorem saveEvent_duplicate_rejected_witness :
    (mkNote 3).id ∈ dbFiveNotes.events.map (·.id) ∧
      saveEvent dbFiveNotes (mkNote 3) = .error .dupEvent :=
  ⟨by decide, saveEvent_duplicate_rejected dbFiveNotes (mkNote 3) (by decide)⟩

/-- **C4** (code bug, evaluated at the failing input): with five stored
kind-1 events and a filter limit of 2, `CountEvents` returns 2 — the count
query wraps the `LIMIT`-ed select — although the unlimited filter matches
all 5 rows (and the repository's own test
`TestEventStore_CountEvents_IgnoresLimit` expects 5). -/
theorem countEvents_honors_filter_limit :
    countEvents ftsNone dbFiveNotes { kinds := [1], limit := 2 } = 2 ∧
      countEvents ftsNone dbFiveNotes { kinds := [1] } = 5 := by
  decide

/-- **C1** (code bug, evaluated at the failing input): replacing with an
event that is already stored deletes it — the duplicate save is a no-op but
the deferred delete loop then removes the event's own id, leaving zero
versions for the `(author, kind)` key. -/
theorem replaceEvent_resave_deletes_event :
    (replaceEvent ftsNone DB.empty evReplaceable).events = [evReplaceable] ∧
      (replaceEvent ftsNone (replaceEvent ftsNone DB.empty evReplaceable)
        evReplaceable).events = [] := by
  decide

/-- **C6** (code bug, evaluated at the failing input): the invite lookup
filter uses the two-character tag key `"#p"`, which the query builder
silently drops, so `GenerateInviteEvent("bob")` returns the persisted invite
whose recipient `p` tag is `alice`. -/
theorem generateInvite_returns_other_pubkeys_invite :
    (GenerateInviteEvent ftsNone cfgGroups dbInvite 99 "tok" "bob").1 = inviteForAlice ∧
      findWithValue inviteForAlice.tags "p" "bob" = false ∧
      findWithValue inviteForAlice.tags "p" "alice" = true := by
  decide

/-- **C8** (counterexample): with groups disabled, `CanRead` returns `false`
even for an event whose group id is the relay sentinel `"_"` — the claim's
"regardless of configuration" fails. -/
theorem canRead_sentinel_groups_disabled_false :
    GetGroupIDFromEvent evSentinel = "_" ∧
      CanRead ftsNone cfgNoGroups { db := DB.empty } "viewer" evSentinel = false := by
  decide

/-- **C8** (amended): provided groups are enabled, every event whose group
id is the relay sentinel `"_"` is readable by every viewer, regardless of
viewer and group state. -/
theorem canRead_sentinel_requires_groups_enabled
    (fts : String → String → Bool) (cfg : Config) (g : GroupState)
    (pubkey : String) (event : Event)
    (henabled : cfg.groups.enabled = true)
    (hsentinel : GetGroupIDFromEvent event = "_") :
    CanRead fts cfg g pubkey event = true := by
  simp [CanRead, henabled, hsentinel]

/-- Witness for the amended C8: the sentinel chat event is readable under
the groups-enabled configuration. -/
theorem canRead_sentinel_requires_groups_enabled_witness :
    cfgGroups.groups.enabled = true ∧ GetGroupIDFromEvent evSentinel = "_" ∧
      CanRead ftsNone cfgGroups { db := DB.empty } "viewer" evSentinel = true :=
  ⟨by decide, by decide,
    canRead_sentinel_requires_groups_enabled ftsNone cfgGroups { db := DB.empty }
      "viewer" evSentinel (by decide) (by decide)⟩

/-! ### C9: relay-published list events -/

/-- `HasTag` distributes over append. -/
theorem hasTag_append (a b : Tags) (name : String) :
    HasTag (a ++ b) name = (HasTag a name || HasTag b name) := by
  simp [HasTag, List.any_append]

/-- The visibility flag tags never include the bare `-` marker. -/
theorem hasTag_dash_metadataFlagTags (jsonFlag : String → String → Bool) (content : String) :
    HasTag (metadataFlagTags jsonFlag content) "-" = false := by
  unfold metadataFlagTags
  split_ifs <;> simp [HasTag]

/-- The `h`-to-`d` tag rewrite of `UpdateMetadata` neither creates nor
destroys a bare `-` tag. -/
theorem hasTag_dash_metadataEventTags (ts : Tags) :
    HasTag (metadataEventTags ts) "-" = HasTag ts "-" := by
  induction ts with
  | nil => rfl
  | cons t rest ih =>
    have hstep : HasTag (metadataEventTags (t :: rest)) "-"
        = (decide (t.head? = some "-") || HasTag (metadataEventTags rest) "-") := by
      match t with
      | [] => simp [metadataEventTags, HasTag]
      | [k] => simp [metadataEventTags, HasTag]
      | k :: v :: more =>
        by_cases hk : k = "h"
        · subst hk; simp [metadataEventTags, HasTag]
        · simp [metadataEventTags, HasTag, hk]
    rw [hstep, ih]
    simp [HasTag]

/-- **C9** (counterexample): the group-metadata record `UpdateMetadata`
builds from a create-group event carries no bare `-` marker tag — its tags
are the rewritten client tags plus visibility flags only, falsifying the
claim for the metadata record. -/
theorem updateMetadata_missing_marker_tag :
    (updateMetadataEvent jsonNone cfgGroups evCreatePub).tags = [["d", "g"]] ∧
      HasTag (updateMetadataEvent jsonNone cfgGroups evCreatePub).tags "-" = false ∧
      (updateMetadataEvent jsonNone cfgGroups evCreatePub).pubkey = cfgGroups.self := by
  decide

/-- **C9** (amended): the members list and the admins list published by the
relay are signed with the relay's own key and carry the bare `-` marker; the
group-metadata record is signed with the relay's own key but carries `-`
exactly when the client's create/edit event already did. -/
theorem relay_list_events_signed_and_marked
    (fts jsonFlag : String → String → Bool) (pkValid : String → Bool)
    (cfg : Config) (g : GroupState) (now : Int) (h : String) (event : Event) :
    ((membersListEvent fts pkValid cfg g now h).pubkey = cfg.self ∧
      HasTag (membersListEvent fts pkValid cfg g now h).tags "-" = true) ∧
    ((adminsListEvent fts cfg g now h).pubkey = cfg.self ∧
      HasTag (adminsListEvent fts cfg g now h).tags "-" = true) ∧
    ((updateMetadataEvent jsonFlag cfg event).pubkey = cfg.self ∧
      HasTag (updateMetadataEvent jsonFlag cfg event).tags "-" = HasTag event.tags "-") := by
  refine ⟨⟨rfl, ?_⟩, ⟨rfl, ?_⟩, rfl, ?_⟩
  · simp [membersListEvent, signEvent, HasTag]
  · simp [adminsListEvent, signEvent, HasTag]
  · show HasTag (metadataEventTags event.tags ++ metadataFlagTags jsonFlag event.content) "-"
      = HasTag event.tags "-"
    rw [hasTag_append, hasTag_dash_metadataFlagTags, hasTag_dash_metadataEventTags]
    simp

/-! ### C5: multi-character tag keys in filters -/

/-- A filter with every tag constraint for key `k` removed. -/
def eraseTagKey (f : Filter) (k : String) : Filter :=
  { f with tags := f.tags.filter (fun kv => kv.1 ≠ k) }

/-- `all` is unchanged by dropping elements on which the predicate is
trivially true. -/
theorem all_filter_of_dropped {α : Type} {P Q : α → Bool} (l : List α)
    (hdrop : ∀ a ∈ l, Q a = false → P a = true) :
    (l.filter Q).all P = l.all P := by
  induction l with
  | nil => rfl
  | cons a l ih =>
    have ih' := ih (fun a ha => hdrop a (List.mem_cons_of_mem _ ha))
    by_cases hq : Q a = true
    · simp [List.filter_cons, hq, ih']
    · have hq' : Q a = false := by simpa using hq
      have hp := hdrop a (List.mem_cons_self a l) hq'
      simp [List.filter_cons, hq', hp, ih']

/-- Dropping a multi-character key from the tag map does not change the
`WHERE` conjunction. -/
theorem selectPred_eraseTagKey (fts : String → String → Bool)
    (rows : List TagRow) (f : Filter) (k : String) (hk : k.length ≠ 1) (e : Event) :
    selectPred fts rows (eraseTagKey f k) e = selectPred fts rows f e := by
  unfold selectPred eraseTagKey
  simp only
  congr 1
  exact all_filter_of_dropped f.tags fun kv _ hkv => by
    have : kv.1 = k := by
      by_contra hne
      simp [hne] at hkv
    simp [this, hk]

/-- Dropping a multi-character key does not change the generated select. -/
theorem buildSelectQuery_eraseTagKey (fts : String → String → Bool)
    (db : DB) (f : Filter) (k : String) (hk : k.length ≠ 1) :
    buildSelectQuery fts db (eraseTagKey f k) = buildSelectQuery fts db f := by
  unfold buildSelectQuery
  have : (queryOrder db.events).filter (selectPred fts db.tagRows (eraseTagKey f k))
      = (queryOrder db.events).filter (selectPred fts db.tagRows f) :=
    List.filter_congr fun e _ => selectPred_eraseTagKey fts db.tagRows f k hk e
  simp only [eraseTagKey] at this ⊢
  rw [this]

/-- **C5.** A tag constraint whose key is not a single character is dropped
entirely — the query equals the query with that constraint removed — while a
single-character tag constraint restricts every yielded event to those with
a matching tag-index row. -/
theorem query_drops_multichar_tag_keys (fts : String → String → Bool)
    (db : DB) (f : Filter) (maxLimit : Nat) (k : String) :
    (k.length ≠ 1 →
      queryEvents fts db f maxLimit = queryEvents fts db (eraseTagKey f k) maxLimit) ∧
    (∀ vs e, k.length = 1 → (k, vs) ∈ f.tags → vs ≠ [] →
      e ∈ queryEvents fts db f maxLimit → tagCond db.tagRows k vs e.id = true) := by
  constructor
  · intro hk
    refine (?_ : queryEvents fts db (eraseTagKey f k) maxLimit = _).symm
    unfold queryEvents
    rw [show (eraseTagKey f k).limitZero = f.limitZero from rfl,
        show (eraseTagKey f k).limit = f.limit from rfl]
    rcases hzb : f.limitZero with _ | _
    · simp only [Bool.false_eq_true, if_false]
      rcases hcap : (decide (maxLimit > 0) && decide (maxLimit < f.limit)) with _ | _
      · simp only [Bool.false_eq_true, if_false]
        exact buildSelectQuery_eraseTagKey fts db f k hk
      · simp only [if_true]
        exact buildSelectQuery_eraseTagKey fts db { f with limit := maxLimit } k hk
    · simp
  · intro vs e hk hmem hvs hq
    have hall : f.tags.all
        (fun kv => kv.2.isEmpty || kv.1.length ≠ 1 || tagCond db.tagRows kv.1 kv.2 e.id)
        = true := by
      unfold queryEvents at hq
      split at hq
      · exact absurd hq (List.not_mem_nil e)
      · have hsound : ∀ f' : Filter, e ∈ buildSelectQuery fts db f' →
            selectPred fts db.tagRows f' e = true := by
          intro f' hq'
          unfold buildSelectQuery at hq'
          split at hq'
          · exact (List.mem_filter.mp (List.mem_of_mem_take hq')).2
          · exact (List.mem_filter.mp hq').2
        split at hq
        · have := hsound _ hq
          unfold selectPred at this
          simp only [Bool.and_eq_true] at this
          exact this.2
        · have := hsound _ hq
          unfold selectPred at this
          simp only [Bool.and_eq_true] at this
          exact this.2
    have hcl := List.all_eq_true.mp hall (k, vs) hmem
    simpa [hvs, hk] using hcl

/-! ### C2 and C3: the write decision table -/

/-- No moderation kind is a metadata kind. -/
theorem mod_kinds_not_meta {k : Nat} (hk : k ∈ ModerationEventKinds) :
    k ∉ MetadataEventKinds := by
  fin_cases hk <;> decide

/-- **C2.** For a group-moderation event (other than create-group, which the
table resolves earlier) on an existing group with groups enabled: when the
group is private and `private_relay_admin_access` is off, anyone but the
group creator is rejected with the private-group message; otherwise anyone
with neither the manage capability nor creatorship is rejected with the
generic moderation message. -/
theorem checkWrite_moderation_authorization
    (fts jsonFlag : String → String → Bool) (cfg : Config) (g : GroupState) (event : Event)
    (henabled : cfg.groups.enabled = true)
    (hmod : event.kind ∈ ModerationEventKinds)
    (hnc : event.kind ≠ KindSimpleGroupCreateGroup)
    (hfound : (GetMetadata fts g (GetGroupIDFromEvent event)).isSome = true) :
    (IsPrivateGroup fts g (GetGroupIDFromEvent event) = true →
      cfg.groups.privateRelayAdminAccess = false →
      IsGroupCreator fts g (GetGroupIDFromEvent event) event.pubkey = false →
      CheckWrite fts jsonFlag cfg g event
        = "restricted: only the group creator can manage private groups") ∧
    ((IsPrivateGroup fts g (GetGroupIDFromEvent event) = false ∨
        cfg.groups.privateRelayAdminAccess = true) →
      cfg.canManage event.pubkey = false →
      IsGroupCreator fts g (GetGroupIDFromEvent event) event.pubkey = false →
      CheckWrite fts jsonFlag cfg g event
        = "restricted: you are not authorized to manage groups") := by
  obtain ⟨meta, hmeta⟩ := Option.isSome_iff_exists.mp hfound
  have hnotmeta := mod_kinds_not_meta hmod
  constructor
  · intro hpriv hacc hcreator
    simp [CheckWrite, checkWriteModeration, henabled, hnotmeta, hmod, hmeta, hnc,
      hpriv, hacc, hcreator]
  · intro hdisj hman hcreator
    rcases hdisj with hpriv | hacc
    · simp [CheckWrite, checkWriteModeration, henabled, hnotmeta, hmod, hmeta, hnc,
        hpriv, hman, hcreator]
    · simp [CheckWrite, checkWriteModeration, henabled, hnotmeta, hmod, hmeta, hnc,
        hacc, hman, hcreator]

/-- Witness for C2: `alice` (not a manager, not the creator `carol`) sending
a put-user moderation event to the warmed private group `g` is rejected with
the private-group message. -/
theorem checkWrite_moderation_authorization_witness :
    cfgGroups.groups.enabled = true ∧
      (9000 : Nat) ∈ ModerationEventKinds ∧
      CheckWrite ftsNone jsonNone cfgGroups gPrivWarm
        { id := "ep", pubkey := "alice", createdAt := 40, kind := 9000,
          content := "", tags := [["p", "bob"], ["h", "g"]] }
        = "restricted: only the group creator can manage private groups" := by
  refine ⟨by decide, by decide, ?_⟩
  exact (checkWrite_moderation_authorization ftsNone jsonNone cfgGroups gPrivWarm
    { id := "ep", pubkey := "alice", createdAt := 40, kind := 9000,
      content := "", tags := [["p", "bob"], ["h", "g"]] }
    (by decide) (by decide) (by decide) (by decide)).1 (by decide) (by decide) (by decide)

/-- **C3.** For a join request to an existing private-or-hidden group
(groups enabled) from a non-member: without a code matching a persisted
create-invite for the group, the request is rejected — masked as "not
found" when the group is hidden — and with a matching code it is accepted. -/
theorem checkWrite_joinRequest_invite_gate
    (fts jsonFlag : String → String → Bool) (cfg : Config) (g : GroupState)
    (event : Event) (meta : Event)
    (henabled : cfg.groups.enabled = true)
    (hkind : event.kind = KindSimpleGroupJoinRequest)
    (hmeta : GetMetadata fts g (GetGroupIDFromEvent event) = some meta)
    (hnm : IsMember fts g (GetGroupIDFromEvent event) event.pubkey = false)
    (hpriv : HasTag meta.tags "private" = true ∨ HasTag meta.tags "hidden" = true) :
    (ValidateInviteCode fts g (GetGroupIDFromEvent event)
        (GetInviteCodeFromEvent event) = false →
      CheckWrite fts jsonFlag cfg g event =
        if HasTag meta.tags "hidden" then "invalid: group not found"
        else "restricted: valid invite code required to join this group") ∧
    (ValidateInviteCode fts g (GetGroupIDFromEvent event)
        (GetInviteCodeFromEvent event) = true →
      CheckWrite fts jsonFlag cfg g event = "") := by
  have hA : KindSimpleGroupJoinRequest ∉ MetadataEventKinds := by decide
  have hB : KindSimpleGroupJoinRequest ∉ ModerationEventKinds := by decide
  have hC : KindSimpleGroupJoinRequest ≠ KindSimpleGroupCreateGroup := by decide
  constructor
  · intro hv
    rcases hh : HasTag meta.tags "hidden" with _ | _
    · have hp : HasTag meta.tags "private" = true := by
        rcases hpriv with h | h
        · exact h
        · rw [h] at hh; cases hh
      simp [CheckWrite, henabled, hkind, hA, hB, hC, hmeta, hnm, hv, hh, hp]
    · simp [CheckWrite, henabled, hkind, hA, hB, hC, hmeta, hnm, hv, hh]
  · intro hv
    simp [CheckWrite, henabled, hkind, hA, hB, hC, hmeta, hnm, hv]

/-! ### C7: warmed caches vs cold log replay -/

theorem mem_sortedInsert {x e : Event} {l : List Event} :
    x ∈ sortedInsert e l ↔ x = e ∨ x ∈ l := by
  induction l with
  | nil => simp [sortedInsert]
  | cons a l ih =>
    by_cases h : a.createdAt ≤ e.createdAt
    · simp [sortedInsert, h]
    · simp only [sortedInsert, h, if_false, List.mem_cons, ih]
      tauto

theorem mem_queryOrder_fold {x : Event} : ∀ (l acc : List Event),
    x ∈ l.foldl (fun acc e => sortedInsert e acc) acc ↔ x ∈ acc ∨ x ∈ l := by
  intro l
  induction l with
  | nil => simp
  | cons e l ih =>
    intro acc
    rw [List.foldl_cons, ih, mem_sortedInsert]
    simp only [List.mem_cons]
    tauto

/-- The sorted view of the `events` table has the same members. -/
theorem mem_queryOrder {x : Event} {l : List Event} : x ∈ queryOrder l ↔ x ∈ l := by
  unfold queryOrder
  rw [mem_queryOrder_fold]
  simp

/-- The admissibility of a store for the membership-log claim: the tag index
is the canonical index of the stored events (as `SaveEvent`/`DeleteEvent`
maintain it), ids are unique, and every put-user/remove-user event names one
non-empty group in all of its `h` tags. -/
def memLogAdmissible (db : DB) : Prop :=
  db.tagRows = db.events.flatMap (fun e => tagRowsFor e.id e.tags) ∧
  (db.events.map (·.id)).Nodup ∧
  ∀ e ∈ db.events,
    (e.kind = KindSimpleGroupPutUser ∨ e.kind = KindSimpleGroupRemoveUser) →
    ∀ v ∈ findAllTagValues e.tags "h", v = GetGroupIDFromEvent e ∧ v ≠ ""

theorem mem_findAllTagValues {tags : Tags} {k v : String} :
    v ∈ findAllTagValues tags k ↔ ∃ rest, (k :: v :: rest) ∈ tags := by
  unfold findAllTagValues
  rw [List.mem_filterMap]
  constructor
  · rintro ⟨t, ht, hf⟩
    match t with
    | [] => simp at hf
    | [k0] => simp at hf
    | k0 :: v0 :: rest =>
      by_cases hk : k0 = k
      · subst hk
        simp only [if_true, Option.some_inj] at hf
        subst hf
        exact ⟨rest, ht⟩
      · simp [hk] at hf
  · rintro ⟨rest, ht⟩
    exact ⟨k :: v :: rest, ht, by simp⟩

theorem tagRowsFor_mem_of {id k v : String} {rest : List String} {tags : Tags}
    (ht : (k :: v :: rest) ∈ tags) (hk : k.length = 1) :
    (⟨id, k, v⟩ : TagRow) ∈ tagRowsFor id tags := by
  unfold tagRowsFor
  exact List.mem_filterMap.mpr ⟨k :: v :: rest, ht, by simp [hk]⟩

theorem of_mem_tagRowsFor {id : String} {tags : Tags} {r : TagRow}
    (hr : r ∈ tagRowsFor id tags) :
    r.eventId = id ∧ r.value ∈ findAllTagValues tags r.key := by
  obtain ⟨t, ht, hf⟩ := List.mem_filterMap.mp hr
  match t with
  | [] => simp at hf
  | [k0] => simp at hf
  | k0 :: v0 :: rest =>
    by_cases hk : k0.length = 1
    · simp only [if_pos hk, Option.some_inj] at hf
      subst hf
      exact ⟨rfl, mem_findAllTagValues.mpr ⟨rest, ht⟩⟩
    · simp [hk] at hf

/-- Under the well-formed tag index with unique ids, the tag-constraint
subquery for a single-character key decides membership of the value among
the event's own tag values. -/
theorem tagCond_eq_mem_values {db : DB}
    (hwf : db.tagRows = db.events.flatMap fun e => tagRowsFor e.id e.tags)
    (hnd : (db.events.map (·.id)).Nodup)
    {e : Event} (he : e ∈ db.events) {k : String} (hk : k.length = 1) (v : String) :
    tagCond db.tagRows k [v] e.id = true ↔ v ∈ findAllTagValues e.tags k := by
  unfold tagCond
  rw [List.any_eq_true]
  constructor
  · rintro ⟨r, hr, hcond⟩
    simp only [Bool.and_eq_true, decide_eq_true_eq] at hcond
    obtain ⟨⟨hid, hkey⟩, hval⟩ := hcond
    have hval' : r.value = v := by simpa using hval
    rw [hwf] at hr
    obtain ⟨e', he', hre⟩ := List.mem_flatMap.mp hr
    obtain ⟨hrid, hrmem⟩ := of_mem_tagRowsFor hre
    have heq : e' = e := by
      have hinj := List.inj_on_of_nodup_map hnd
      exact hinj he' he (by rw [← hrid, hid])
    rw [heq, hkey, hval'] at hrmem
    exact hrmem
  · intro hv
    obtain ⟨rest, ht⟩ := mem_findAllTagValues.mp hv
    refine ⟨⟨e.id, k, v⟩, ?_, by simp⟩
    rw [hwf]
    exact List.mem_flatMap.mpr ⟨e, he, tagRowsFor_mem_of ht hk⟩

/-- `QueryEvents` for a kinds/tags filter with zero limit: the ordered table
filtered by the `WHERE` conjunction, whatever the `maxLimit` cap. -/
theorem queryEvents_kinds_tags (fts : String → String → Bool) (db : DB)
    (ks : List Nat) (tl : List (String × List String)) (m : Nat) :
    queryEvents fts db { kinds := ks, tags := tl } m
      = (queryOrder db.events).filter
          (selectPred fts db.tagRows { kinds := ks, tags := tl }) := by
  unfold queryEvents buildSelectQuery
  simp

/-- The `WHERE` conjunction of a kinds/tags filter. -/
theorem selectPred_kinds_tags (fts : String → String → Bool) (rows : List TagRow)
    (ks : List Nat) (tl : List (String × List String)) (e : Event) :
    selectPred fts rows { kinds := ks, tags := tl } e
      = ((ks.isEmpty || ks.contains e.kind) &&
         tl.all fun kv => kv.2.isEmpty || kv.1.length ≠ 1 || tagCond rows kv.1 kv.2 e.id) := by
  simp [selectPred]

/-- Adding an `h` tag constraint to a kinds filter post-filters the query by
the tag-index subquery. -/
theorem queryEvents_kinds_htag (fts : String → String → Bool) (db : DB)
    (ks : List Nat) (h : String) (m : Nat) :
    queryEvents fts db { kinds := ks, tags := [("h", [h])] } m
      = (queryEvents fts db { kinds := ks } 0).filter
          (fun e => tagCond db.tagRows "h" [h] e.id) := by
  rw [queryEvents_kinds_tags, show ({ kinds := ks } : Filter) = { kinds := ks, tags := [] }
      from rfl, queryEvents_kinds_tags, List.filter_filter]
  apply List.filter_congr
  intro e _
  rw [selectPred_kinds_tags, selectPred_kinds_tags]
  simp only [List.all_cons, List.all_nil, List.isEmpty_cons, Bool.and_true,
    show (decide ("h".length ≠ 1)) = false from by decide, Bool.false_or]
  generalize (ks.isEmpty || ks.contains e.kind) = a
  generalize tagCond db.tagRows "h" [h] e.id = b
  revert a b
  decide

/-- Adding `p` and `h` tag constraints to a kinds filter post-filters the
query by both tag-index subqueries. -/
theorem queryEvents_kinds_ptag_htag (fts : String → String → Bool) (db : DB)
    (ks : List Nat) (pk h : String) (m : Nat) :
    queryEvents fts db { kinds := ks, tags := [("p", [pk]), ("h", [h])] } m
      = ((queryEvents fts db { kinds := ks } 0).filter
          (fun e => tagCond db.tagRows "h" [h] e.id)).filter
          (fun e => tagCond db.tagRows "p" [pk] e.id) := by
  rw [queryEvents_kinds_tags, show ({ kinds := ks } : Filter) = { kinds := ks, tags := [] }
      from rfl, queryEvents_kinds_tags, List.filter_filter, List.filter_filter]
  apply List.filter_congr
  intro e _
  rw [selectPred_kinds_tags, selectPred_kinds_tags]
  simp only [List.all_cons, List.all_nil, List.isEmpty_cons, Bool.and_true,
    show (decide ("h".length ≠ 1)) = false from by decide,
    show (decide ("p".length ≠ 1)) = false from by decide, Bool.false_or]
  generalize (ks.isEmpty || ks.contains e.kind) = a
  generalize tagCond db.tagRows "p" [pk] e.id = b
  generalize tagCond db.tagRows "h" [h] e.id = c
  revert a b c
  decide

/-- For put/remove events the group id comes from the first `h` tag. -/
theorem getGroupID_put_remove {e : Event}
    (hk : e.kind = KindSimpleGroupPutUser ∨ e.kind = KindSimpleGroupRemoveUser) :
    GetGroupIDFromEvent e
      = (match findTag e.tags "h" with | some (v, _) => v | none => "") := by
  have hc : e.kind ∉ MetadataEventKinds := by
    rcases hk with h | h <;> rw [h] <;> decide
  simp [GetGroupIDFromEvent, hc]

/-- The value `Find` returns is among the `FindAll` values. -/
theorem findTag_mem_findAll {tags : Tags} {k v : String} {rest : List String}
    (h : findTag tags k = some (v, rest)) : v ∈ findAllTagValues tags k := by
  induction tags with
  | nil => simp [findTag] at h
  | cons t ts ih =>
    match t with
    | [] =>
      have h2 : findTag ts k = some (v, rest) := h
      simpa [findAllTagValues] using ih h2
    | [k0] =>
      have h2 : findTag ts k = some (v, rest) := h
      simpa [findAllTagValues] using ih h2
    | k0 :: v0 :: more =>
      have h2 : (if k0 = k then some (v0, more) else findTag ts k)
          = some (v, rest) := h
      by_cases hk0 : k0 = k
      · subst hk0
        rw [if_pos rfl, Option.some_inj] at h2
        have hv : v0 = v := congrArg Prod.fst h2
        subst hv
        simp [findAllTagValues]
      · rw [if_neg hk0] at h2
        simpa [findAllTagValues, hk0] using ih h2

/-- Under admissibility, the `h` tag constraint over the index decides
exactly whether the event routes to the (non-empty) group `h`. -/
theorem tagCond_h_eq_route {db : DB} (hadm : memLogAdmissible db) {e : Event}
    (he : e ∈ db.events)
    (hk : e.kind = KindSimpleGroupPutUser ∨ e.kind = KindSimpleGroupRemoveUser)
    (h : String) :
    tagCond db.tagRows "h" [h] e.id
      = decide (GetGroupIDFromEvent e = h ∧ h ≠ "") := by
  obtain ⟨hwf, hnd, hvals⟩ := hadm
  have hiff := tagCond_eq_mem_values hwf hnd he (k := "h") (by decide) h
  by_cases hP : GetGroupIDFromEvent e = h ∧ h ≠ ""
  · have hmem : h ∈ findAllTagValues e.tags "h" := by
      obtain ⟨hroute, hne⟩ := hP
      rw [getGroupID_put_remove hk] at hroute
      rcases hft : findTag e.tags "h" with _ | ⟨v, rest⟩
      · rw [hft] at hroute
        exact absurd hroute.symm hne
      · rw [hft] at hroute
        rw [← hroute]
        exact findTag_mem_findAll hft
    simp [hP, hiff.mpr hmem]
  · have hfalse : tagCond db.tagRows "h" [h] e.id = false := by
      rcases htc : tagCond db.tagRows "h" [h] e.id with _ | _
      · rfl
      · exfalso
        obtain ⟨hvh, hne⟩ := hvals e he hk h (hiff.mp htc)
        exact hP ⟨hvh.symm, hne⟩
    simp [hP, hfalse]

/-- Under the well-formed index, the `p` tag constraint decides membership of
the key among the event's `p` tag values. -/
theorem tagCond_p_eq_mentions {db : DB}
    (hwf : db.tagRows = db.events.flatMap fun e => tagRowsFor e.id e.tags)
    (hnd : (db.events.map (·.id)).Nodup)
    {e : Event} (he : e ∈ db.events) (pk : String) :
    tagCond db.tagRows "p" [pk] e.id = decide (pk ∈ findAllTagValues e.tags "p") := by
  have hiff := tagCond_eq_mem_values hwf hnd he (k := "p") (by decide) pk
  by_cases hP : pk ∈ findAllTagValues e.tags "p"
  · simp [hP, hiff.mpr hP]
  · have hfalse : tagCond db.tagRows "p" [pk] e.id = false := by
      rcases htc : tagCond db.tagRows "p" [pk] e.id with _ | _
      · rfl
      · exact absurd (hiff.mp htc) hP
    simp [hP, hfalse]

/-- The member set an association list holds for a group, empty when
absent. -/
def lookupOrEmpty (l : List (String × List String)) (h : String) : List String :=
  (lookupAssoc l h).getD []

theorem contains_eq_mem (l : List String) (a : String) : l.contains a = decide (a ∈ l) :=
  List.elem_eq_mem a l

theorem msInsert_contains_self (l : List String) (pk : String) :
    (msInsert l pk).contains pk = true := by
  unfold msInsert
  by_cases h : l.contains pk = true
  · rw [if_pos h]; exact h
  · rw [if_neg h, contains_eq_mem]; simp

theorem msRemove_contains_self (l : List String) (pk : String) :
    (msRemove l pk).contains pk = false := by
  rw [msRemove, contains_eq_mem]
  simp [List.mem_filter]

theorem msInsert_contains_other (l : List String) {v pk : String} (h : v ≠ pk) :
    (msInsert l v).contains pk = l.contains pk := by
  unfold msInsert
  split
  · rfl
  · rw [contains_eq_mem, contains_eq_mem]
    simp [List.mem_append, Ne.symm h]

theorem msRemove_contains_other (l : List String) {v pk : String} (h : v ≠ pk) :
    (msRemove l v).contains pk = l.contains pk := by
  rw [msRemove, contains_eq_mem, contains_eq_mem]
  simp [List.mem_filter, Ne.symm h]

theorem memberValueOp_contains_ne (pkValid : String → Bool) (kind : Nat)
    (acc : List String) {v pk : String} (h : v ≠ pk) :
    (memberValueOp pkValid kind acc v).contains pk = acc.contains pk := by
  unfold memberValueOp pubKeyFromHex
  by_cases hv : pkValid v = true
  · simp only [hv, if_true]
    by_cases hkind : kind = KindSimpleGroupPutUser
    · rw [if_pos hkind]; exact msInsert_contains_other acc h
    · rw [if_neg hkind]; exact msRemove_contains_other acc h
  · simp only [Bool.not_eq_true] at hv
    simp only [hv, Bool.false_eq_true, if_false]

theorem memberValueOp_contains_self (pkValid : String → Bool) (kind : Nat)
    (acc : List String) (pk : String) (hv : pkValid pk = true) :
    (memberValueOp pkValid kind acc pk).contains pk
      = decide (kind = KindSimpleGroupPutUser) := by
  unfold memberValueOp pubKeyFromHex
  simp only [hv, if_true]
  by_cases hkind : kind = KindSimpleGroupPutUser
  · rw [if_pos hkind, msInsert_contains_self]
    exact (decide_eq_true hkind).symm
  · rw [if_neg hkind, msRemove_contains_self]
    exact (decide_eq_false hkind).symm

theorem memberValueOp_invalid (pkValid : String → Bool) (kind : Nat)
    (acc : List String) {v : String} (hv : pkValid v = false) :
    memberValueOp pkValid kind acc v = acc := by
  unfold memberValueOp pubKeyFromHex
  simp [hv]

theorem foldValues_contains (pkValid : String → Bool) (kind : Nat) (pk : String) :
    ∀ (vs : List String) (acc : List String),
    ((vs.foldl (memberValueOp pkValid kind) acc).contains pk)
      = if pk ∈ vs ∧ pkValid pk = true then decide (kind = KindSimpleGroupPutUser)
        else acc.contains pk := by
  intro vs
  induction vs with
  | nil => intro acc; simp
  | cons v vs ih =>
    intro acc
    rw [List.foldl_cons, ih]
    by_cases hveq : v = pk
    · subst hveq
      by_cases hvalid : pkValid v = true
      · by_cases hmem : v ∈ vs
        · rw [if_pos ⟨hmem, hvalid⟩, if_pos ⟨List.mem_cons_self v vs, hvalid⟩]
        · rw [if_neg (fun hc => hmem hc.1),
            memberValueOp_contains_self pkValid kind acc v hvalid,
            if_pos ⟨List.mem_cons_self v vs, hvalid⟩]
      · have hvalid' : pkValid v = false := by simpa using hvalid
        rw [memberValueOp_invalid pkValid kind acc hvalid',
          if_neg (fun hc => hvalid hc.2), if_neg (fun hc => hvalid hc.2)]
    · rw [memberValueOp_contains_ne pkValid kind acc hveq]
      have hcond : (pk ∈ v :: vs ∧ pkValid pk = true) ↔ (pk ∈ vs ∧ pkValid pk = true) := by
        simp [List.mem_cons, Ne.symm hveq]
      rw [if_congr hcond rfl rfl]

theorem membershipStep_contains (pkValid : String → Bool) (acc : List String)
    (e : Event) (pk : String) :
    (membershipStep pkValid acc e).contains pk
      = if pk ∈ findAllTagValues e.tags "p" ∧ pkValid pk = true
        then decide (e.kind = KindSimpleGroupPutUser)
        else acc.contains pk := by
  unfold membershipStep
  exact foldValues_contains pkValid e.kind pk (findAllTagValues e.tags "p") acc

/-- The ascending replay of a descending put/remove list holds a key exactly
when the newest event mentioning it is a put-user — which is what the cold
`IsMember` scan computes. -/
theorem replay_contains_eq_scan (pkValid : String → Bool) (pk : String)
    (hpk : pkValid pk = true) :
    ∀ (L : List Event),
      (∀ e ∈ L, e.kind = KindSimpleGroupPutUser ∨ e.kind = KindSimpleGroupRemoveUser) →
      ((L.reverse).foldl (membershipStep pkValid) []).contains pk
        = isMemberScan (L.filter (fun e => decide (pk ∈ findAllTagValues e.tags "p"))) := by
  intro L
  induction L with
  | nil => intro _; rfl
  | cons e L ih =>
    intro hkinds
    rw [List.foldl_reverse] at ih ⊢
    rw [List.foldr_cons, membershipStep_contains]
    by_cases hm : pk ∈ findAllTagValues e.tags "p"
    · rw [if_pos ⟨hm, hpk⟩, List.filter_cons_of_pos (by simpa using hm)]
      rcases hkinds e (List.mem_cons_self e L) with h9 | h9 <;>
        simp [isMemberScan, h9, KindSimpleGroupPutUser, KindSimpleGroupRemoveUser]
    · rw [if_neg (by simp [hm]), List.filter_cons_of_neg (by simpa using hm)]
      exact ih fun e' he' => hkinds e' (List.mem_cons_of_mem e he')

theorem lookupAssoc_setAssoc_self {β : Type} (l : List (String × β)) (k : String) (v : β) :
    lookupAssoc (setAssoc l k v) k = some v := by
  induction l with
  | nil => simp [setAssoc, lookupAssoc]
  | cons kv l ih =>
    by_cases h : kv.1 = k
    · simp [setAssoc, h, lookupAssoc]
    · simp [setAssoc, h, lookupAssoc, ih]

theorem lookupAssoc_setAssoc_ne {β : Type} (l : List (String × β)) {k k' : String}
    (v : β) (h : k' ≠ k) :
    lookupAssoc (setAssoc l k v) k' = lookupAssoc l k' := by
  induction l with
  | nil => simp [setAssoc, lookupAssoc, Ne.symm h]
  | cons kv l ih =>
    by_cases h1 : kv.1 = k
    · have h2 : kv.1 ≠ k' := by rw [h1]; exact Ne.symm h
      simp [setAssoc, h1, lookupAssoc, Ne.symm h, h2]
    · by_cases h2 : kv.1 = k'
      · simp [setAssoc, h1, lookupAssoc, h2, h]
      · simp [setAssoc, h1, lookupAssoc, h2, ih]

theorem warmTagStep_lookup_self (pkValid : String → Bool) (h : String) (kind : Nat)
    (acc : List (String × List String)) (v : String) :
    lookupOrEmpty (warmMembershipTagStep pkValid h kind acc v) h
      = memberValueOp pkValid kind (lookupOrEmpty acc h) v := by
  unfold warmMembershipTagStep memberValueOp lookupOrEmpty
  cases hp : pubKeyFromHex pkValid v with
  | none => rfl
  | some pk => simp [lookupAssoc_setAssoc_self]

theorem warmTagStep_lookup_ne (pkValid : String → Bool) {h h' : String} (kind : Nat)
    (acc : List (String × List String)) (v : String) (hne : h' ≠ h) :
    lookupOrEmpty (warmMembershipTagStep pkValid h kind acc v) h'
      = lookupOrEmpty acc h' := by
  unfold warmMembershipTagStep lookupOrEmpty
  cases hp : pubKeyFromHex pkValid v with
  | none => rfl
  | some pk => simp [lookupAssoc_setAssoc_ne _ _ hne]

theorem warmTagFold_lookup_self (pkValid : String → Bool) (h : String) (kind : Nat) :
    ∀ (vs : List String) (acc : List (String × List String)),
    lookupOrEmpty (vs.foldl (warmMembershipTagStep pkValid h kind) acc) h
      = vs.foldl (memberValueOp pkValid kind) (lookupOrEmpty acc h) := by
  intro vs
  induction vs with
  | nil => intro acc; rfl
  | cons v vs ih =>
    intro acc
    rw [List.foldl_cons, List.foldl_cons, ih, warmTagStep_lookup_self]

theorem warmTagFold_lookup_ne (pkValid : String → Bool) {h h' : String} (kind : Nat)
    (hne : h' ≠ h) :
    ∀ (vs : List String) (acc : List (String × List String)),
    lookupOrEmpty (vs.foldl (warmMembershipTagStep pkValid h kind) acc) h'
      = lookupOrEmpty acc h' := by
  intro vs
  induction vs with
  | nil => intro acc; rfl
  | cons v vs ih =>
    intro acc
    rw [List.foldl_cons, ih, warmTagStep_lookup_ne pkValid kind acc v hne]

/-- One warm-cache event step, observed at a fixed group `h`. -/
theorem warmStep_lookup (pkValid : String → Bool)
    (acc : List (String × List String)) (e : Event) (h : String) :
    lookupOrEmpty (warmMembershipStep pkValid acc e) h
      = if GetGroupIDFromEvent e = h ∧ h ≠ ""
        then membershipStep pkValid (lookupOrEmpty acc h) e
        else lookupOrEmpty acc h := by
  unfold warmMembershipStep membershipStep
  by_cases hr : GetGroupIDFromEvent e = ""
  · rw [if_pos hr]
    have hcond : ¬(GetGroupIDFromEvent e = h ∧ h ≠ "") := by
      rintro ⟨h1, h2⟩
      exact h2 (by rw [← h1, hr])
    rw [if_neg hcond]
  · rw [if_neg hr]
    by_cases hrh : GetGroupIDFromEvent e = h
    · subst hrh
      rw [if_pos ⟨rfl, hr⟩]
      exact warmTagFold_lookup_self pkValid _ e.kind (findAllTagValues e.tags "p") acc
    · rw [if_neg (fun hc => hrh hc.1)]
      exact warmTagFold_lookup_ne pkValid e.kind (fun heq => hrh heq.symm)
        (findAllTagValues e.tags "p") acc

/-- The warm membership pass, observed at a fixed group `h`, is the plain
replay of the events that route to `h`. -/
theorem warmFold_lookup (pkValid : String → Bool) (h : String) :
    ∀ (A : List Event) (acc : List (String × List String)),
    lookupOrEmpty (A.foldl (warmMembershipStep pkValid) acc) h
      = (A.filter (fun e => decide (GetGroupIDFromEvent e = h ∧ h ≠ ""))).foldl
          (membershipStep pkValid) (lookupOrEmpty acc h) := by
  intro A
  induction A with
  | nil => intro acc; rfl
  | cons e A ih =>
    intro acc
    rw [List.foldl_cons, ih]
    by_cases hc : GetGroupIDFromEvent e = h ∧ h ≠ ""
    · rw [List.filter_cons_of_pos (by simpa using hc), List.foldl_cons,
        warmStep_lookup, if_pos hc]
    · rw [List.filter_cons_of_neg (by simpa using hc), warmStep_lookup, if_neg hc]

theorem isMember_warm (fts : String → String → Bool) (g : GroupState)
    (h pk : String) (hw : g.cachesWarmed = true) :
    IsMember fts g h pk = (lookupOrEmpty g.membershipCache h).contains pk := by
  unfold IsMember lookupOrEmpty
  simp only [hw, if_true]
  cases hl : lookupAssoc g.membershipCache h <;> simp

theorem isMember_cold (fts : String → String → Bool) (g : GroupState)
    (h pk : String) (hw : g.cachesWarmed = false) :
    IsMember fts g h pk = isMemberScan (queryEvents fts g.db
      { kinds := [KindSimpleGroupPutUser, KindSimpleGroupRemoveUser],
        tags := [("p", [pk]), ("h", [h])] } 1) := by
  unfold IsMember
  simp [hw]

theorem getMembers_warm (fts : String → String → Bool) (pkValid : String → Bool)
    (g : GroupState) (h : String) (hw : g.cachesWarmed = true) :
    GetMembers fts pkValid g h = lookupOrEmpty g.membershipCache h := by
  unfold GetMembers lookupOrEmpty
  simp only [hw, if_true]
  cases hl : lookupAssoc g.membershipCache h <;> simp

theorem getMembers_cold (fts : String → String → Bool) (pkValid : String → Bool)
    (g : GroupState) (h : String) (hw : g.cachesWarmed = false) :
    GetMembers fts pkValid g h
      = ((queryEvents fts g.db
          { kinds := [KindSimpleGroupPutUser, KindSimpleGroupRemoveUser],
            tags := [("h", [h])] } 0).reverse).foldl (membershipStep pkValid) [] := by
  unfold GetMembers
  simp [hw]

theorem mem_memLog {fts : String → String → Bool} {db : DB} {e : Event}
    (he : e ∈ queryEvents fts db
      { kinds := [KindSimpleGroupPutUser, KindSimpleGroupRemoveUser] } 0) :
    e ∈ db.events ∧
      (e.kind = KindSimpleGroupPutUser ∨ e.kind = KindSimpleGroupRemoveUser) := by
  rw [show ({ kinds := [KindSimpleGroupPutUser, KindSimpleGroupRemoveUser] } : Filter)
      = { kinds := [KindSimpleGroupPutUser, KindSimpleGroupRemoveUser], tags := [] }
      from rfl, queryEvents_kinds_tags] at he
  obtain ⟨hbase, hpred⟩ := List.mem_filter.mp he
  refine ⟨mem_queryOrder.mp hbase, ?_⟩
  rw [selectPred_kinds_tags] at hpred
  simpa using hpred

/-- **C7.** For every admissible put-user/remove-user history, querying
membership through the caches warmed from the log agrees with the cold,
log-backed path: `is_member` coincides, and `members(h)` yields the same set
of pubkeys. -/
theorem warm_cold_membership_agree
    (fts : String → String → Bool) (pkValid : String → Bool) (db : DB)
    (h pk : String) (hadm : memLogAdmissible db) (hpk : pkValid pk = true) :
    IsMember fts (WarmCaches fts pkValid { db := db }) h pk
        = IsMember fts { db := db } h pk ∧
      (pk ∈ GetMembers fts pkValid (WarmCaches fts pkValid { db := db }) h
        ↔ pk ∈ GetMembers fts pkValid { db := db } h) := by
  obtain ⟨hwf, hnd, -⟩ := id hadm
  have hmemL : ∀ e ∈ queryEvents fts db
      { kinds := [KindSimpleGroupPutUser, KindSimpleGroupRemoveUser] } 0,
      e ∈ db.events ∧
        (e.kind = KindSimpleGroupPutUser ∨ e.kind = KindSimpleGroupRemoveUser) :=
    fun e he => mem_memLog he
  -- the warmed state's membership entry at h is the replay of the events of h
  have hroute : (queryEvents fts db
        { kinds := [KindSimpleGroupPutUser, KindSimpleGroupRemoveUser] } 0).filter
          (fun e => decide (GetGroupIDFromEvent e = h ∧ h ≠ ""))
      = (queryEvents fts db
        { kinds := [KindSimpleGroupPutUser, KindSimpleGroupRemoveUser] } 0).filter
          (fun e => tagCond db.tagRows "h" [h] e.id) :=
    List.filter_congr fun e he =>
      (tagCond_h_eq_route hadm (hmemL e he).1 (hmemL e he).2 h).symm
  have hentry : lookupOrEmpty
        (WarmCaches fts pkValid { db := db }).membershipCache h
      = (((queryEvents fts db
            { kinds := [KindSimpleGroupPutUser, KindSimpleGroupRemoveUser] } 0).filter
            (fun e => tagCond db.tagRows "h" [h] e.id)).reverse).foldl
          (membershipStep pkValid) [] := by
    show lookupOrEmpty (((queryEvents fts db
        { kinds := [KindSimpleGroupPutUser, KindSimpleGroupRemoveUser] } 0).reverse).foldl
        (warmMembershipStep pkValid) []) h = _
    rw [warmFold_lookup, List.filter_reverse, hroute]
    rfl
  constructor
  · -- is_member agrees
    rw [isMember_warm fts _ h pk rfl, isMember_cold fts _ h pk rfl, hentry]
    rw [replay_contains_eq_scan pkValid pk hpk _
      (fun e he => (hmemL e (List.mem_of_mem_filter he)).2)]
    show _ = isMemberScan (queryEvents fts db
      { kinds := [KindSimpleGroupPutUser, KindSimpleGroupRemoveUser],
        tags := [("p", [pk]), ("h", [h])] } 1)
    rw [queryEvents_kinds_ptag_htag]
    congr 1
    exact List.filter_congr fun e he =>
      (tagCond_p_eq_mentions hwf hnd (hmemL e (List.mem_of_mem_filter he)).1 pk).symm
  · -- members(h) agrees (the lists are equal)
    rw [getMembers_warm fts pkValid _ h rfl, getMembers_cold fts pkValid _ h rfl, hentry]
    show _ ∈ ((_ : List Event).reverse).foldl (membershipStep pkValid) []
      ↔ _ ∈ ((queryEvents fts db
        { kinds := [KindSimpleGroupPutUser, KindSimpleGroupRemoveUser],
          tags := [("h", [h])] } 0).reverse).foldl (membershipStep pkValid) []
    rw [queryEvents_kinds_htag]

/-! ### Remaining witnesses -/

/-- Witness for C5: a `title` (multi-character) tag constraint is dropped
from a query against the five-note store. -/
theorem query_drops_multichar_tag_keys_witness :
    ("title".length ≠ 1) ∧
      queryEvents ftsNone dbFiveNotes { kinds := [1], tags := [("title", ["x"])] } 0
        = queryEvents ftsNone dbFiveNotes
            (eraseTagKey { kinds := [1], tags := [("title", ["x"])] } "title") 0 :=
  ⟨by decide,
    (query_drops_multichar_tag_keys ftsNone dbFiveNotes
      { kinds := [1], tags := [("title", ["x"])] } 0 "title").1 (by decide)⟩

/-- Witness for C3: `bob`, not a member, joining the warmed private group
`g` without any invite code is rejected with the invite-required message. -/
theorem checkWrite_joinRequest_invite_gate_witness :
    HasTag metaPrivG.tags "private" = true ∧
      CheckWrite ftsNone jsonNone cfgGroups gPrivWarm
        { id := "ej", pubkey := "bob", createdAt := 60,
          kind := KindSimpleGroupJoinRequest, content := "", tags := [["h", "g"]] }
        = "restricted: valid invite code required to join this group" :=
  ⟨by decide,
    ((checkWrite_joinRequest_invite_gate ftsNone jsonNone cfgGroups gPrivWarm
      { id := "ej", pubkey := "bob", createdAt := 60,
        kind := KindSimpleGroupJoinRequest, content := "", tags := [["h", "g"]] }
      metaPrivG (by decide) (by decide) (by decide) (by decide)
      (Or.inl (by decide))).1 (by decide)).trans (by decide)⟩

/-- A three-event membership log for group `grp`: put `alice`, remove
`alice`, put `alice` again. -/
def dbMemLog : DB :=
  [({ id := "m1", pubkey := "relay", createdAt := 100, kind := KindSimpleGroupPutUser,
      content := "", tags := [["p", "alice"], ["h", "grp"]] } : Event),
   { id := "m2", pubkey := "relay", createdAt := 200, kind := KindSimpleGroupRemoveUser,
      content := "", tags := [["p", "alice"], ["h", "grp"]] },
   { id := "m3", pubkey := "relay", createdAt := 300, kind := KindSimpleGroupPutUser,
      content := "", tags := [["p", "alice"], ["h", "grp"]] }].foldl
    (fun db e => match saveEvent db e with | .ok d => d | .error _ => db) DB.empty

/-- Witness for C7: warming from the three-event log agrees with the cold
path for `alice` in `grp`. -/
theorem warm_cold_membership_agree_witness :
    memLogAdmissible dbMemLog ∧ pkAll "alice" = true ∧
      IsMember ftsNone (WarmCaches ftsNone pkAll { db := dbMemLog }) "grp" "alice"
        = IsMember ftsNone { db := dbMemLog } "grp" "alice" := by
  have hadm : memLogAdmissible dbMemLog := by
    unfold memLogAdmissible
    exact ⟨by decide, by decide, by decide⟩
  exact ⟨hadm, rfl,
    (warm_cold_membership_agree ftsNone pkAll dbMemLog "grp" "alice" hadm rfl).1⟩

end Zooid
